import Mathlib

/-!
Verification of the `colour.plotting` module (files `plots.py` and
`characterization.py`): chromaticity-diagram boundary drawing and
wavelength-label placement, the display and figure-size helpers, the colour
swatch grid, and the name-based lookup helpers.

Numeric values are modelled with exact rationals; where the Python code
normalises a vector by its Euclidean norm (an irrational quantity), only the
sign of the result is ever consumed by a branch, and dividing by a positive
norm preserves signs.  A section over `ℝ` proves this sign-preservation fact
for the exact normalisation (`dot_norme_pos_iff`).
-/

namespace ColourPlotting

/-- A 2D chromaticity coordinate `(x, y)` (or `(u, v)`), modelled exactly. -/
abbrev Pt := ℚ × ℚ

/-- Componentwise difference of two points, `a - b` (numpy array subtraction). -/
def vsub (a b : Pt) : Pt := (a.1 - b.1, a.2 - b.2)

/-- The planar dot product, `np.dot` on length-2 arrays. -/
def dotp (a b : Pt) : ℚ := a.1 * b.1 + a.2 * b.2

/-- The equal-energy reference point: every chromaticity-diagram plot sets
`equal_energy = np.array([1. / 3.] * 2)`. -/
def equal_energy : Pt := (1/3, 1/3)

/-- Python `bisect.bisect(l, x)` (a.k.a. `bisect_right`) on the sorted
wavelength lists used by the plots: the insertion point for `x`, which for a
sorted list equals the number of entries `≤ x`. -/
def bisect_right (l : List ℚ) (x : ℚ) : ℕ :=
  l.countP (fun w => decide (w ≤ x))

/-- Python list indexing `l[i]`: non-negative indices count from the front,
negative indices from the back (`l[-1]` is the last element); out of range
raises `IndexError`, modelled as `none`. -/
def py_get (l : List ℚ) (i : Int) : Option ℚ :=
  if 0 ≤ i then l.get? i.toNat
  else if 0 ≤ i + l.length then l.get? (i + l.length).toNat else none

/-- Lookup in the Python dict built by `dict(zip(wavelengths, coords))`:
for duplicate keys the last binding wins, hence the search over the reversed
association list.  `dict.get` returns `None` (here `none`) for absent keys. -/
def dict_get (table : List (ℚ × Pt)) (k : ℚ) : Option Pt :=
  (table.reverse.find? (fun e => decide (e.1 = k))).map (fun e => e.2)

/-- The normal-direction choice in the label-placement loop:

```
normal = (np.array((-dy, dx))
          if np.dot(norme(xy - equal_energy), norme(direction)) > 0 else
          np.array((dy, -dx)))
```

where `direction = (-dy, dx)` and `norme = lambda x: x / np.linalg.norm(x)`.
Dividing both arguments of the dot product by their (positive) norms does not
change its sign, so the branch condition is `0 < dot (xy - equal_energy)
direction` exactly (see `dot_norme_pos_iff`); when either vector is zero the
float dot product is NaN and `NaN > 0` is `False`, which again agrees with
`0 < 0` being false. -/
def choose_normal (xy : Pt) (dx dy : ℚ) : Pt :=
  if 0 < dotp (vsub xy equal_energy) (-dy, dx) then (-dy, dx) else (dy, -dx)

/-- The data computed by one iteration of the label-placement loop shared by
`CIE_1931_chromaticity_diagram_plot`, `CIE_1960_UCS_chromaticity_diagram_plot`
and `CIE_1976_UCS_chromaticity_diagram_plot`.  `normal` is the chosen normal
direction before the final `normal = norme(normal); normal /= 25` rescaling,
which multiplies it by the positive scalar `1 / (25 ‖normal‖)` and therefore
changes neither the sign of its components nor its direction. -/
structure LabelPlacement where
  point   : Pt
  left    : ℚ
  right   : ℚ
  tangent : Pt
  normal  : Pt
  ha      : String
deriving DecidableEq, Repr

/-- Horizontal alignment `'left' if normal[0] >= 0 else 'right'`.  The code
compares a component of the unit-normalised normal; for a non-zero normal
this has the sign of the un-normalised component, and for the zero normal the
float normalisation produces NaN and `NaN >= 0` is `False`, giving `right`. -/
def h_align (normal : Pt) : String :=
  if normal = ((0 : ℚ), (0 : ℚ)) then "right"
  else if 0 ≤ normal.1 then "left" else "right"

/-- Selection of the left bracket wavelength,
`left = wavelengths[index - 1] if index >= 0 else wavelengths[index]`
(with Python indexing, so `index = 0` reaches for `wavelengths[-1]`). -/
def locus_left_wavelength (ws : List ℚ) (index : Int) : Option ℚ :=
  if 0 ≤ index then py_get ws (index - 1) else py_get ws index

/-- Selection of the right bracket wavelength,
`right = wavelengths[index] if index < len(wavelengths) else wavelengths[-1]`:
past the end, the index clamps to the last sample. -/
def locus_right_wavelength (ws : List ℚ) (index : Int) : Option ℚ :=
  if index < (ws.length : Int) then py_get ws index else py_get ws (-1)

/-- One iteration of the label-placement loop of the chromaticity-diagram
plots, for a given locus `table = zip(wavelengths, coords)` and `label`:

```
x, y = wavelengths_chromaticity_coordinates.get(label)
index = bisect.bisect(wavelengths, label)
left = wavelengths[index - 1] if index >= 0 else wavelengths[index]
right = wavelengths[index] if index < len(wavelengths) else wavelengths[-1]
dx = coords.get(right)[0] - coords.get(left)[0]
dy = coords.get(right)[1] - coords.get(left)[1]
...
```

`none` models the run raising an exception (unpacking `None` from a failed
coordinate lookup, or an out-of-range list index). -/
def place_label (table : List (ℚ × Pt)) (label : ℚ) : Option LabelPlacement :=
  (dict_get table label).bind fun xy =>
  (locus_left_wavelength (table.map Prod.fst)
      (bisect_right (table.map Prod.fst) label)).bind fun wl =>
  (locus_right_wavelength (table.map Prod.fst)
      (bisect_right (table.map Prod.fst) label)).bind fun wr =>
  (dict_get table wr).bind fun cr =>
  (dict_get table wl).bind fun cl =>
  some { point := xy, left := wl, right := wr,
         tangent := (cr.1 - cl.1, cr.2 - cl.2),
         normal := choose_normal xy (cr.1 - cl.1) (cr.2 - cl.2),
         ha := h_align (choose_normal xy (cr.1 - cl.1) (cr.2 - cl.2)) }

/-- The tick and text positions are `point + c · norme(normal)` for positive
constants `c`; they are finite numbers exactly when the chosen normal is not
the zero vector, since otherwise `norme` divides by
`np.linalg.norm(normal) = 0` and every coordinate becomes NaN. -/
def positions_defined (p : LabelPlacement) : Prop :=
  p.normal ≠ ((0 : ℚ), (0 : ℚ))

instance (p : LabelPlacement) : Decidable (positions_defined p) := by
  unfold positions_defined; infer_instance

/-- The table wavelengths strictly below `x` (the claim-side notion of a
"neighbour strictly below"; its last entry is the nearest one). -/
def wavelengths_below (ws : List ℚ) (x : ℚ) : List ℚ :=
  ws.filter (fun w => decide (w < x))

/-- The table wavelengths strictly above `x` (the claim-side notion of a
"neighbour strictly above"; its head is the nearest one). -/
def wavelengths_above (ws : List ℚ) (x : ℚ) : List ℚ :=
  ws.filter (fun w => decide (x < w))

/-- The exact vector normalisation `norme = lambda x: x / np.linalg.norm(x)`
over the reals, used to justify the sign-preservation argument. -/
noncomputable def norme_r (v : ℝ × ℝ) : ℝ × ℝ :=
  (v.1 / Real.sqrt (v.1 ^ 2 + v.2 ^ 2), v.2 / Real.sqrt (v.1 ^ 2 + v.2 ^ 2))

/-- The real dot product of planar vectors. -/
def dotp_r (a b : ℝ × ℝ) : ℝ := a.1 * b.1 + a.2 * b.2

/-- Polyline segments drawn by `pylab.plot(x, y)` through the ordered
coordinates of the spectral locus. -/
def polyline_segments : List Pt → List (Pt × Pt)
  | a :: b :: rest => (a, b) :: polyline_segments (b :: rest)
  | _ => []

/-- The explicit closing segment
`pylab.plot((x[-1], x[0]), (y[-1], y[0]))` from the last coordinate back to
the first; an empty coordinate list would raise `IndexError` (`none`). -/
def closing_segment (cs : List Pt) : Option (Pt × Pt) :=
  match cs.getLast?, cs.head? with
  | some a, some b => some (a, b)
  | _, _ => none

/-- All boundary segments drawn for the spectral locus: the traced polyline
followed by the explicit closing segment. -/
def spectral_locus_segments (cs : List Pt) : List (Pt × Pt) :=
  polyline_segments cs ++ (closing_segment cs).toList

/-- A segment list forms a closed chain: each segment ends where the next one
begins, and the last segment ends where the first one begins. -/
def closed_chain (segs : List (Pt × Pt)) : Prop :=
  List.Chain' (fun s t => s.2 = t.1) segs ∧
  ∀ s₀ sₙ, segs.head? = some s₀ → segs.getLast? = some sₙ → sₙ.2 = s₀.1

/-- Calls made against the plotting backend by the `display` helper. -/
inductive BackendCall
  | savefig
  | showFig
  | close
deriving DecidableEq, Repr

/-- Model of `display(**kwargs)` from `plots.py`.  The default settings are
`standalone = True`, `filename = None`, merged with caller overrides; given
the merged settings the helper runs

```
if settings.standalone:
    if settings.filename is not None:
        pylab.savefig(**kwargs)
    else:
        pylab.show()
    pylab.close()
return True
```

and is modelled as the list of backend calls performed plus the returned
flag. -/
def display (standalone : Bool) (filename : Option String) :
    List BackendCall × Bool :=
  (if standalone then
     (if filename.isSome then [BackendCall.savefig] else [BackendCall.showFig])
       ++ [BackendCall.close]
   else [], true)

/-- Title-text position of `colour_checker_plot` in `characterization.py`:

```
text_x = width * (across / 2) + (across * (spacing / 2)) - spacing / 2
text_y = -(len(colour_parameters) / across + spacing / 2)
```

under `from __future__ import division` (line 13 of the file), so `/` is true
division even on the integer operands `across` and `len(colour_parameters)`. -/
def colour_checker_text_position (width spacing : ℚ) (across count : ℕ) :
    ℚ × ℚ :=
  (width * ((across : ℚ) / 2) + ((across : ℚ) * (spacing / 2)) - spacing / 2,
   -((count : ℚ) / (across : ℚ) + spacing / 2))

/-- The same computation with the count-by-step divisions floored (integer
division), the behaviour the claim rules out. -/
def colour_checker_text_position_floored (width spacing : ℚ)
    (across count : ℕ) : ℚ × ℚ :=
  (width * ((across / 2 : ℕ) : ℚ) + ((across : ℚ) * (spacing / 2))
     - spacing / 2,
   -(((count / across : ℕ) : ℚ) + spacing / 2))

/-- The backend's global state: `pylab.rcParams['figure.figsize']` together
with the rest of the figure state, which the decorator never touches. -/
structure PylabState (σ : Type) where
  figsize : ℚ × ℚ
  rest : σ

/-- Default plots figure size, `DEFAULT_FIGURE_SIZE = 14, 7`. -/
def DEFAULT_FIGURE_SIZE : ℚ × ℚ := (14, 7)

/-- Model of the wrapper installed by the `figure_size(size)` decorator:

```
pylab.rcParams['figure.figsize'] = kwargs.get('figure_size') if kwargs.get(
    'figure_size') is not None else size
try:
    return object(*args, **kwargs)
finally:
    pylab.rcParams['figure.figsize'] = DEFAULT_FIGURE_SIZE
```

The wrapped body is any state transformer that may either return a value or
raise an exception (`Except ε α`); the `finally` clause runs in both cases. -/
def figure_size_wrapper {σ α ε : Type} (size : ℚ × ℚ)
    (figure_size_kwarg : Option (ℚ × ℚ))
    (body : PylabState σ → PylabState σ × Except ε α) (s : PylabState σ) :
    PylabState σ × Except ε α :=
  let s1 : PylabState σ := { s with figsize := figure_size_kwarg.getD size }
  let r := body s1
  ({ r.1 with figsize := DEFAULT_FIGURE_SIZE }, r.2)

/-- One iteration of the swatch loop of `multi_colour_plot`, mapping the
state `(offsetX, offsetY)` before drawing swatch `i` to the drawn lower-left
corner and the state for the next iteration:

```
if i % across == 0 and i != 0:
    offsetX = 0
    offsetY -= height + spacing
x0 = offsetX; y0 = offsetY
...
offsetX += width + spacing
```
-/
def swatch_step (width height spacing : ℚ) (across i : ℕ) (st : ℚ × ℚ) :
    (ℚ × ℚ) × (ℚ × ℚ) :=
  let st1 := if i % across = 0 ∧ i ≠ 0 then ((0 : ℚ), st.2 - (height + spacing))
             else st
  (st1, (st1.1 + (width + spacing), st1.2))

/-- The `(offsetX, offsetY)` state of `multi_colour_plot` before drawing
swatch `i`; the loop starts from `offsetX = offsetY = 0`. -/
def swatch_state (width height spacing : ℚ) (across : ℕ) : ℕ → ℚ × ℚ
  | 0 => (0, 0)
  | i + 1 =>
    (swatch_step width height spacing across i
      (swatch_state width height spacing across i)).2

/-- The lower-left corner `(x0, y0)` of the `i`-th swatch rectangle drawn by
`multi_colour_plot`. -/
def swatch_origin (width height spacing : ℚ) (across i : ℕ) : ℚ × ℚ :=
  (swatch_step width height spacing across i
    (swatch_state width height spacing across i)).1

/-- Python-level exceptions raised by the lookup helpers. -/
inductive PyError
  | keyError (msg : String)
  | attributeError (msg : String)
deriving DecidableEq, Repr

/-- Model of `_get_cmfs` from `plots.py`:

```
cmfs, name = CMFS.get(cmfs), cmfs
if cmfs is None:
    raise KeyError(
        '"{0}" not found in factory colour matching functions: "{1}".'.format(
            name, sorted(cmfs.CMFS.keys())))
return cmfs
```

In the failure branch the local `cmfs` is `None` (it was rebound to the
lookup result), so evaluating the format argument `sorted(cmfs.CMFS.keys())`
raises `AttributeError` before the `KeyError` is ever constructed; the model
returns that `AttributeError`. -/
def get_cmfs {α : Type} (cmfs_table : List (String × α)) (name : String) :
    Except PyError α :=
  match (cmfs_table.find? (fun e => decide (e.1 = name))).map (fun e => e.2)
      with
  | some c => Except.ok c
  | none =>
    Except.error (PyError.attributeError
      "NoneType object has no attribute CMFS")

/-- A stand-in table of factory colour matching functions (only key presence
matters to the lookup helper). -/
def sampleCMFSTable : List (String × ℕ) :=
  [("CIE 1931 2 Degree Standard Observer", 0),
   ("CIE 1964 10 Degree Standard Observer", 1)]

/-- A small concrete locus table exercising the C1 theorem. -/
def sampleTable1 : List (ℚ × Pt) :=
  [(1, ((0 : ℚ), (0 : ℚ))), (2, ((1/2 : ℚ), (0 : ℚ))),
   (3, ((1/2 : ℚ), (1/2 : ℚ)))]

/-- The placement computed for the label `2` of `sampleTable1`. -/
def samplePlacement1 : LabelPlacement :=
  { point := ((1/2 : ℚ), (0 : ℚ)), left := 2, right := 3,
    tangent := ((0 : ℚ), (1/2 : ℚ)), normal := ((1/2 : ℚ), (0 : ℚ)),
    ha := "left" }

/-- A small concrete locus table exercising the C2 theorems. -/
def sampleTable2 : List (ℚ × Pt) :=
  [(1, ((0 : ℚ), (0 : ℚ))), (2, ((1/2 : ℚ), (0 : ℚ))),
   (3, ((1/2 : ℚ), (1/2 : ℚ)))]

/-- The placement computed for the label `2` of `sampleTable2`. -/
def samplePlacement2 : LabelPlacement :=
  { point := ((1/2 : ℚ), (0 : ℚ)), left := 2, right := 3,
    tangent := ((0 : ℚ), (1/2 : ℚ)), normal := ((1/2 : ℚ), (0 : ℚ)),
    ha := "left" }

/-- A small concrete locus table exercising the C3 theorems. -/
def sampleTable3 : List (ℚ × Pt) :=
  [(1, ((0 : ℚ), (0 : ℚ))), (2, ((1/2 : ℚ), (0 : ℚ))),
   (3, ((1/2 : ℚ), (1/2 : ℚ)))]

/-- The placement computed for the label `2` of `sampleTable3`. -/
def samplePlacement3 : LabelPlacement :=
  { point := ((1/2 : ℚ), (0 : ℚ)), left := 2, right := 3,
    tangent := ((0 : ℚ), (1/2 : ℚ)), normal := ((1/2 : ℚ), (0 : ℚ)),
    ha := "left" }

/-- A small concrete locus table exercising the C5 theorems; its last
wavelength is `2`. -/
def sampleTable5 : List (ℚ × Pt) :=
  [(1, ((0 : ℚ), (0 : ℚ))), (2, ((1 : ℚ), (0 : ℚ)))]

/-- The degenerate placement computed for the label `2` (the last table
wavelength) of `sampleTable5`: both brackets clamp to the last sample. -/
def samplePlacement5 : LabelPlacement :=
  { point := ((1 : ℚ), (0 : ℚ)), left := 2, right := 2,
    tangent := ((0 : ℚ), (0 : ℚ)), normal := ((0 : ℚ), (0 : ℚ)),
    ha := "right" }

/-- A concrete boundary coordinate list exercising the C6 theorem. -/
def sampleLocus6 : List Pt :=
  [((0 : ℚ), (0 : ℚ)), ((1 : ℚ), (0 : ℚ)), ((0 : ℚ), (1 : ℚ))]

end ColourPlotting

namespace ColourPlotting

/-! ## Supporting lemmas -/

/-- Dividing both vectors by their (positive) Euclidean norms preserves the
sign of the dot product: the branch condition
`np.dot(norme(a), norme(b)) > 0` of the label-placement loop is equivalent to
`dot a b > 0` whenever both vectors are non-zero. -/
theorem dot_norme_pos_iff (a b : ℝ × ℝ) (ha : a ≠ 0) (hb : b ≠ 0) :
    0 < dotp_r (norme_r a) (norme_r b) ↔ 0 < dotp_r a b := by
  have hsq : ∀ v : ℝ × ℝ, v ≠ 0 → 0 < v.1 ^ 2 + v.2 ^ 2 := by
    intro v hv
    rcases eq_or_ne v.1 0 with h1 | h1
    · have h2 : v.2 ≠ 0 := by
        intro h2
        exact hv (Prod.ext h1 h2)
      have := pow_pos (abs_pos.mpr h2) 2
      nlinarith [sq_nonneg v.1, sq_nonneg v.2, sq_abs v.2]
    · nlinarith [sq_nonneg v.1, sq_nonneg v.2, pow_pos (abs_pos.mpr h1) 2,
        sq_abs v.1]
  have hra : 0 < Real.sqrt (a.1 ^ 2 + a.2 ^ 2) :=
    Real.sqrt_pos.mpr (hsq a ha)
  have hrb : 0 < Real.sqrt (b.1 ^ 2 + b.2 ^ 2) :=
    Real.sqrt_pos.mpr (hsq b hb)
  have key : dotp_r (norme_r a) (norme_r b)
      = dotp_r a b / (Real.sqrt (a.1 ^ 2 + a.2 ^ 2)
          * Real.sqrt (b.1 ^ 2 + b.2 ^ 2)) := by
    unfold dotp_r norme_r
    field_simp
  rw [key]
  constructor
  · intro h
    by_contra hle
    push_neg at hle
    have : dotp_r a b / (Real.sqrt (a.1 ^ 2 + a.2 ^ 2)
        * Real.sqrt (b.1 ^ 2 + b.2 ^ 2)) ≤ 0 :=
      div_nonpos_of_nonpos_of_nonneg hle (le_of_lt (mul_pos hra hrb))
    linarith
  · intro h
    exact div_pos h (mul_pos hra hrb)

/-- Inversion principle for a successful label placement: the record fields
are related by the definitions of the loop body. -/
theorem place_label_some {table : List (ℚ × Pt)} {label : ℚ}
    {p : LabelPlacement} (h : place_label table label = some p) :
    dict_get table label = some p.point ∧
    p.normal = choose_normal p.point p.tangent.1 p.tangent.2 ∧
    p.ha = h_align p.normal := by
  simp only [place_label, Option.bind_eq_some, Option.some.injEq] at h
  obtain ⟨xy, hxy, wl, hwl, wr, hwr, cr, hcr, cl, hcl, hp⟩ := h
  subst hp
  exact ⟨hxy, rfl, rfl⟩

/-- Core geometric fact: the chosen normal never points towards the
equal-energy point. -/
theorem choose_normal_dot_nonneg (xy : Pt) (dx dy : ℚ) :
    0 ≤ dotp (choose_normal xy dx dy) (vsub xy equal_energy) := by
  unfold choose_normal
  split
  · next hpos =>
    have hc : dotp (vsub xy equal_energy) (-dy, dx)
        = dotp (-dy, dx) (vsub xy equal_energy) := by
      unfold dotp; ring
    rw [hc] at hpos
    exact le_of_lt hpos
  · next hneg =>
    push_neg at hneg
    have hc : dotp ((dy : ℚ), -dx) (vsub xy equal_energy)
        = -(dotp (vsub xy equal_energy) (-dy, dx)) := by
      unfold dotp vsub; ring
    rw [hc]
    linarith

/-! ## C1 -/

/-- C1: in the chromaticity-diagram plots (CIE 1931, CIE 1960 UCS, CIE 1976
UCS all share this loop), for every label wavelength whose estimated tangent
is non-zero and whose boundary point differs from the equal-energy point, the
chosen normal direction `n` satisfies `dot(n, point − equal_energy) ≥ 0`,
i.e. it points away from the diagram's interior. -/
theorem label_normal_points_outward (table : List (ℚ × Pt)) (label : ℚ)
    (p : LabelPlacement) (h : place_label table label = some p)
    (_htan : p.tangent ≠ ((0 : ℚ), (0 : ℚ))) (_hpt : p.point ≠ equal_energy) :
    0 ≤ dotp p.normal (vsub p.point equal_energy) := by
  obtain ⟨-, hn, -⟩ := place_label_some h
  rw [hn]
  exact choose_normal_dot_nonneg p.point p.tangent.1 p.tangent.2

/-- Witness for C1 at a concrete input. -/
theorem label_normal_points_outward_witness :
    0 ≤ dotp samplePlacement1.normal
        (vsub samplePlacement1.point equal_energy) :=
  label_normal_points_outward sampleTable1 2 samplePlacement1
    (by norm_num [place_label, dict_get, bisect_right, py_get,
        locus_left_wavelength, locus_right_wavelength, choose_normal, h_align,
        dotp, vsub, equal_energy, sampleTable1, samplePlacement1,
        List.countP, List.countP.go, List.find?, List.get?, Int.toNat_ofNat,
        Prod.ext_iff, LabelPlacement.mk.injEq])
    (by norm_num [samplePlacement1, Prod.ext_iff])
    (by norm_num [samplePlacement1, equal_energy, Prod.ext_iff])

/-! ## C2 -/

/-- Counterexample to C2 as stated: at this placed label the chosen normal
has a positive x-component yet the text is left-aligned, so the claimed rule
"left exactly when the normal's x-component is negative" is false. -/
theorem alignment_claim_counterexample :
    place_label sampleTable2 2 = some samplePlacement2 ∧
    0 < samplePlacement2.normal.1 ∧ samplePlacement2.ha = "left" ∧
    ¬ (samplePlacement2.ha = "left" ↔ samplePlacement2.normal.1 < 0) := by
  refine ⟨?_, by norm_num [samplePlacement2], rfl, ?_⟩
  · norm_num [place_label, dict_get, bisect_right, py_get,
      locus_left_wavelength, locus_right_wavelength, choose_normal, h_align,
      dotp, vsub, equal_energy, sampleTable2, samplePlacement2,
      List.countP, List.countP.go, List.find?, List.get?, Int.toNat_ofNat,
      Prod.ext_iff, LabelPlacement.mk.injEq]
  · intro hiff
    have : samplePlacement2.normal.1 < 0 := hiff.mp rfl
    norm_num [samplePlacement2] at this

/-- C2 (amended): for every placed label whose chosen normal is non-zero,
the text horizontal alignment is "left" when the normal's x-component is
non-negative and "right" when it is negative (the opposite of the original
claim); in particular the 700 nm label of the standard CIE 1931 2-degree
plot follows this corrected rule. -/
theorem label_alignment_left_iff (table : List (ℚ × Pt)) (label : ℚ)
    (p : LabelPlacement) (h : place_label table label = some p)
    (hn : p.normal ≠ ((0 : ℚ), (0 : ℚ))) :
    (p.ha = "left" ↔ 0 ≤ p.normal.1) ∧ (p.ha = "right" ↔ p.normal.1 < 0) := by
  obtain ⟨-, -, hha⟩ := place_label_some h
  rw [hha]
  unfold h_align
  rw [if_neg hn]
  by_cases h0 : 0 ≤ p.normal.1
  · rw [if_pos h0]
    constructor
    · exact ⟨fun _ => h0, fun _ => rfl⟩
    · have hne : ("left" : String) ≠ "right" := by decide
      exact iff_of_false hne (not_lt.mpr h0)
  · rw [if_neg h0]
    constructor
    · have hne : ("right" : String) ≠ "left" := by decide
      exact iff_of_false hne h0
    · exact ⟨fun _ => lt_of_not_le h0, fun _ => rfl⟩

/-- Witness for the amended C2 at a concrete input. -/
theorem label_alignment_left_iff_witness :
    (samplePlacement2.ha = "left" ↔ 0 ≤ samplePlacement2.normal.1) ∧
    (samplePlacement2.ha = "right" ↔ samplePlacement2.normal.1 < 0) :=
  label_alignment_left_iff sampleTable2 2 samplePlacement2
    (by norm_num [place_label, dict_get, bisect_right, py_get,
        locus_left_wavelength, locus_right_wavelength, choose_normal, h_align,
        dotp, vsub, equal_energy, sampleTable2, samplePlacement2,
        List.countP, List.countP.go, List.find?, List.get?, Int.toNat_ofNat,
        Prod.ext_iff, LabelPlacement.mk.injEq])
    (by norm_num [samplePlacement2, Prod.ext_iff])


/-! ## Sorted-table lemmas for the bracket selection (C3, C5) -/

/-- Strictly increasing keys are distinct. -/
theorem keys_nodup (table : List (ℚ × Pt))
    (hs : (table.map Prod.fst).Pairwise (· < ·)) :
    (table.map Prod.fst).Nodup :=
  hs.imp (fun h => ne_of_lt h)

/-- On a list whose keys contain no duplicates, `find?` locates the unique
pair carrying a present key. -/
theorem find_key {α β : Type} [DecidableEq α] (L : List (α × β)) (k : α)
    (v : β) (hmem : (k, v) ∈ L) (hnd : (L.map Prod.fst).Nodup) :
    L.find? (fun e => decide (e.1 = k)) = some (k, v) := by
  induction L with
  | nil => cases hmem
  | cons e L ih =>
    rw [List.map_cons, List.nodup_cons] at hnd
    rcases List.mem_cons.mp hmem with he | hmem2
    · subst he
      rw [List.find?_cons_of_pos]
      simp
    · have hk : e.1 ≠ k := by
        intro hek
        exact hnd.1 (hek ▸ List.mem_map_of_mem Prod.fst hmem2)
      rw [List.find?_cons_of_neg _ (by simpa using hk)]
      exact ih hmem2 hnd.2

/-- On nodup keys, the Python-dict lookup returns the associated value. -/
theorem dict_get_eq (table : List (ℚ × Pt)) (k : ℚ) (v : Pt)
    (hmem : (k, v) ∈ table) (hnd : (table.map Prod.fst).Nodup) :
    dict_get table k = some v := by
  unfold dict_get
  rw [find_key table.reverse k v (List.mem_reverse.mpr hmem)
    (by rw [List.map_reverse]; exact List.nodup_reverse.mpr hnd)]
  rfl

/-- The insertion point returned by `bisect.bisect` for an element present in
a sorted list lies one past that element. -/
theorem bisect_right_split (l₁ l₂ : List ℚ) (x : ℚ)
    (h1 : ∀ w ∈ l₁, w < x) (h2 : ∀ w ∈ l₂, x < w) :
    bisect_right (l₁ ++ x :: l₂) x = l₁.length + 1 := by
  unfold bisect_right
  rw [List.countP_append, List.countP_cons_of_pos _ _ (by simp)]
  have hc1 : l₁.countP (fun w => decide (w ≤ x)) = l₁.length := by
    rw [List.countP_eq_length]
    intro a hha
    exact decide_eq_true (le_of_lt (h1 a hha))
  have hc2 : l₂.countP (fun w => decide (w ≤ x)) = 0 := by
    rw [List.countP_eq_zero]
    intro a hha
    simp [not_le.mpr (h2 a hha)]
  rw [hc1, hc2]

/-- Python indexing at a natural number is plain list indexing. -/
theorem py_get_natCast (l : List ℚ) (n : ℕ) : py_get l (n : Int) = l.get? n := by
  unfold py_get
  rw [if_pos (Int.ofNat_nonneg n)]
  simp

/-- Python indexing at `-1` is the last element. -/
theorem py_get_neg_one (l : List ℚ) (h : l ≠ []) :
    py_get l (-1) = l.getLast? := by
  unfold py_get
  rw [if_neg (by norm_num)]
  have hlen : 0 < l.length := List.length_pos.mpr h
  rw [if_pos (by omega)]
  have ht : ((-1 : Int) + l.length).toNat = l.length - 1 := by omega
  rw [ht, List.getLast?_eq_get?]

/-- Orderedness facts carried by a decomposition of the sorted key list
around a present key. -/
theorem pairwise_split (t₁ t₂ : List (ℚ × Pt)) (label : ℚ) (c : Pt)
    (hs : ((t₁ ++ (label, c) :: t₂).map Prod.fst).Pairwise (· < ·)) :
    (∀ w ∈ t₁.map Prod.fst, w < label) ∧
    (∀ w ∈ t₂.map Prod.fst, label < w) := by
  rw [List.map_append, List.map_cons, List.pairwise_append] at hs
  obtain ⟨-, pw2, hcross⟩ := hs
  rw [List.pairwise_cons] at pw2
  exact ⟨fun w hw => hcross w hw label (List.mem_cons_self _ _),
    fun w hw => pw2.1 w hw⟩

/-- The wavelengths strictly above a present key are exactly the keys of the
suffix of the decomposition. -/
theorem wavelengths_above_split (t₁ t₂ : List (ℚ × Pt)) (label : ℚ) (c : Pt)
    (hs : ((t₁ ++ (label, c) :: t₂).map Prod.fst).Pairwise (· < ·)) :
    wavelengths_above ((t₁ ++ (label, c) :: t₂).map Prod.fst) label
      = t₂.map Prod.fst := by
  obtain ⟨h1, h2⟩ := pairwise_split t₁ t₂ label c hs
  unfold wavelengths_above
  rw [List.map_append, List.map_cons, List.filter_append]
  have hnil : List.filter (fun w => decide (label < w)) (t₁.map Prod.fst)
      = [] :=
    List.filter_eq_nil.mpr
      (fun a ha => by simp [not_lt.mpr (le_of_lt (h1 a ha))])
  have hcons : List.filter (fun w => decide (label < w))
      ((label, c).1 :: t₂.map Prod.fst) = t₂.map Prod.fst := by
    rw [List.filter_cons_of_neg (by simp)]
    exact List.filter_eq_self.mpr (fun a ha => decide_eq_true (h2 a ha))
  rw [hnil, hcons]
  rfl


/-- Full evaluation of the label-placement iteration for a label present in
the sorted table and followed by at least one further sample: the left
bracket is the label itself and the right bracket is the next key. -/
theorem place_label_eval_mid (t₁ : List (ℚ × Pt)) (label : ℚ) (c : Pt)
    (b : ℚ) (cb : Pt) (t₂ : List (ℚ × Pt))
    (hs : ((t₁ ++ (label, c) :: (b, cb) :: t₂).map Prod.fst).Pairwise
      (· < ·)) :
    place_label (t₁ ++ (label, c) :: (b, cb) :: t₂) label =
      some { point := c, left := label, right := b,
             tangent := (cb.1 - c.1, cb.2 - c.2),
             normal := choose_normal c (cb.1 - c.1) (cb.2 - c.2),
             ha := h_align (choose_normal c (cb.1 - c.1) (cb.2 - c.2)) } := by
  obtain ⟨h1, h2⟩ := pairwise_split t₁ ((b, cb) :: t₂) label c hs
  rw [List.map_cons] at h2
  have hnd := keys_nodup _ hs
  have hwseq : (t₁ ++ (label, c) :: (b, cb) :: t₂).map Prod.fst
      = t₁.map Prod.fst ++ label :: b :: t₂.map Prod.fst := by
    simp
  have hbis : bisect_right
      ((t₁ ++ (label, c) :: (b, cb) :: t₂).map Prod.fst) label
      = (t₁.map Prod.fst).length + 1 := by
    rw [hwseq]
    exact bisect_right_split _ _ _ h1 h2
  have hleft : locus_left_wavelength
      ((t₁ ++ (label, c) :: (b, cb) :: t₂).map Prod.fst)
      ((bisect_right ((t₁ ++ (label, c) :: (b, cb) :: t₂).map Prod.fst)
        label : ℕ) : Int) = some label := by
    rw [hbis]
    unfold locus_left_wavelength
    rw [if_pos (Int.natCast_nonneg _)]
    have hcast : (((t₁.map Prod.fst).length + 1 : ℕ) : Int) - 1
        = (((t₁.map Prod.fst).length : ℕ) : Int) := by push_cast; ring
    rw [hcast, py_get_natCast, hwseq,
      List.get?_append_right (le_refl _)]
    simp
  have hlt : ((t₁.map Prod.fst).length + 1 : ℕ)
      < ((t₁ ++ (label, c) :: (b, cb) :: t₂).map Prod.fst).length := by
    rw [hwseq]
    simp
  have hright : locus_right_wavelength
      ((t₁ ++ (label, c) :: (b, cb) :: t₂).map Prod.fst)
      ((bisect_right ((t₁ ++ (label, c) :: (b, cb) :: t₂).map Prod.fst)
        label : ℕ) : Int) = some b := by
    rw [hbis]
    unfold locus_right_wavelength
    rw [if_pos (by exact_mod_cast hlt), py_get_natCast, hwseq,
      List.get?_append_right (by omega)]
    have hone : (t₁.map Prod.fst).length + 1 - (t₁.map Prod.fst).length
        = 1 := by omega
    rw [hone]
    simp
  have hdl : dict_get (t₁ ++ (label, c) :: (b, cb) :: t₂) label = some c :=
    dict_get_eq _ label c (by simp) hnd
  have hdb : dict_get (t₁ ++ (label, c) :: (b, cb) :: t₂) b = some cb :=
    dict_get_eq _ b cb (by simp) hnd
  simp only [place_label, hdl, hleft, hright, hdb, Option.some_bind]

/-- Full evaluation of the label-placement iteration at the last table
wavelength: the right bracket clamps to the last sample, making both
brackets the label itself, the tangent and chosen normal zero, and the
alignment `right` (the float comparison on the NaN-normalised normal). -/
theorem place_label_eval_last (t₁ : List (ℚ × Pt)) (label : ℚ) (c : Pt)
    (hs : ((t₁ ++ [(label, c)]).map Prod.fst).Pairwise (· < ·)) :
    place_label (t₁ ++ [(label, c)]) label =
      some { point := c, left := label, right := label,
             tangent := ((0 : ℚ), (0 : ℚ)),
             normal := ((0 : ℚ), (0 : ℚ)), ha := "right" } := by
  obtain ⟨h1, -⟩ := pairwise_split t₁ [] label c hs
  have hnd := keys_nodup _ hs
  have hwseq : (t₁ ++ [(label, c)]).map Prod.fst
      = t₁.map Prod.fst ++ label :: ([] : List ℚ) := by
    simp
  have hbis : bisect_right ((t₁ ++ [(label, c)]).map Prod.fst) label
      = (t₁.map Prod.fst).length + 1 := by
    rw [hwseq]
    exact bisect_right_split _ _ _ h1 (by simp)
  have hlenT : ((t₁ ++ [(label, c)]).map Prod.fst).length
      = (t₁.map Prod.fst).length + 1 := by
    simp
  have hleft : locus_left_wavelength ((t₁ ++ [(label, c)]).map Prod.fst)
      ((bisect_right ((t₁ ++ [(label, c)]).map Prod.fst) label : ℕ) : Int)
      = some label := by
    rw [hbis]
    unfold locus_left_wavelength
    rw [if_pos (Int.natCast_nonneg _)]
    have hcast : (((t₁.map Prod.fst).length + 1 : ℕ) : Int) - 1
        = (((t₁.map Prod.fst).length : ℕ) : Int) := by push_cast; ring
    rw [hcast, py_get_natCast, hwseq,
      List.get?_append_right (le_refl _)]
    simp
  have hright : locus_right_wavelength ((t₁ ++ [(label, c)]).map Prod.fst)
      ((bisect_right ((t₁ ++ [(label, c)]).map Prod.fst) label : ℕ) : Int)
      = some label := by
    rw [hbis]
    unfold locus_right_wavelength
    rw [if_neg (by rw [hlenT]; exact_mod_cast lt_irrefl _)]
    rw [py_get_neg_one _ (by rw [hwseq]; exact List.append_ne_nil_of_right_ne_nil _ (by simp))]
    rw [hwseq]
    exact List.getLast?_concat _
  have hdl : dict_get (t₁ ++ [(label, c)]) label = some c :=
    dict_get_eq _ label c (by simp) hnd
  simp only [place_label, hdl, hleft, hright, Option.some_bind]
  have hch : choose_normal c (c.1 - c.1) (c.2 - c.2) = ((0 : ℚ), (0 : ℚ)) := by
    unfold choose_normal dotp
    rw [if_neg (by norm_num)]
    norm_num
  rw [hch]
  have hha : h_align ((0 : ℚ), (0 : ℚ)) = "right" := by
    unfold h_align
    rw [if_pos rfl]
  rw [hha]
  norm_num

/-- Bracket selection for a label present in the table with a non-empty set
of strictly larger keys: placement succeeds, the left bracket is the label
itself and the right bracket is the nearest key strictly above, with the
tangent running from the label coordinate to that key's coordinate. -/
theorem place_label_mem_above (table : List (ℚ × Pt)) (label : ℚ) (c : Pt)
    (hs : (table.map Prod.fst).Pairwise (· < ·))
    (hmem : (label, c) ∈ table)
    (habove : wavelengths_above (table.map Prod.fst) label ≠ []) :
    ∃ p, place_label table label = some p ∧ p.left = label ∧
      (wavelengths_above (table.map Prod.fst) label).head? = some p.right ∧
      ∃ cr, (p.right, cr) ∈ table ∧ p.tangent = vsub cr c := by
  obtain ⟨t₁, t₂, rfl⟩ := List.append_of_mem hmem
  have habove_eq := wavelengths_above_split t₁ t₂ label c hs
  cases t₂ with
  | nil =>
    rw [habove_eq] at habove
    simp at habove
  | cons e t₂ =>
    obtain ⟨b, cb⟩ := e
    refine ⟨_, place_label_eval_mid t₁ label c b cb t₂ hs, rfl, ?_, cb, ?_, ?_⟩
    · rw [habove_eq]
      simp
    · simp
    · rfl


/-! ## C3 -/

/-- Counterexample to C3 as stated: for the label `2`, present in the table
`{1, 2, 3}`, the nearest wavelength strictly below is `1` and the nearest
strictly above is `3`, yet the code's left bracket is the label itself and
the tangent is not the vector between the coordinates of those two
neighbours. -/
theorem bracketing_claim_counterexample :
    place_label sampleTable3 2 = some samplePlacement3 ∧
    (wavelengths_below (sampleTable3.map Prod.fst) 2).getLast? = some 1 ∧
    (wavelengths_above (sampleTable3.map Prod.fst) 2).head? = some 3 ∧
    samplePlacement3.left ≠ 1 ∧
    samplePlacement3.tangent
      ≠ vsub ((1/2 : ℚ), (1/2 : ℚ)) ((0 : ℚ), (0 : ℚ)) := by
  refine ⟨?_, ?_, ?_, ?_, ?_⟩
  · norm_num [place_label, dict_get, bisect_right, py_get,
      locus_left_wavelength, locus_right_wavelength, choose_normal, h_align,
      dotp, vsub, equal_energy, sampleTable3, samplePlacement3,
      List.countP, List.countP.go, List.find?, List.get?, Int.toNat_ofNat,
      Prod.ext_iff, LabelPlacement.mk.injEq]
  · norm_num [wavelengths_below, sampleTable3, List.filter]
  · norm_num [wavelengths_above, sampleTable3, List.filter]
  · norm_num [samplePlacement3]
  · norm_num [samplePlacement3, vsub, Prod.ext_iff]

/-- C3 (amended): for a label present in a strictly sorted table and not
equal to its last wavelength, the sorted search brackets the label between
the label's own table entry (the largest wavelength `≤` label) on the left
and the nearest table wavelength strictly above on the right, and the
tangent is the vector from the label's coordinate to that neighbour's
coordinate. -/
theorem tangent_bracket_amended (table : List (ℚ × Pt)) (label : ℚ) (c : Pt)
    (hs : (table.map Prod.fst).Pairwise (· < ·))
    (hmem : (label, c) ∈ table)
    (habove : wavelengths_above (table.map Prod.fst) label ≠ []) :
    ∃ p, place_label table label = some p ∧ p.left = label ∧
      (wavelengths_above (table.map Prod.fst) label).head? = some p.right ∧
      ∃ cr, (p.right, cr) ∈ table ∧ p.tangent = vsub cr c :=
  place_label_mem_above table label c hs hmem habove

/-- Witness for the amended C3 at a concrete input. -/
theorem tangent_bracket_amended_witness :
    ∃ p, place_label sampleTable3 2 = some p ∧ p.left = 2 ∧
      (wavelengths_above (sampleTable3.map Prod.fst) 2).head? = some p.right ∧
      ∃ cr, (p.right, cr) ∈ sampleTable3 ∧
        p.tangent = vsub cr ((1/2 : ℚ), (0 : ℚ)) :=
  tangent_bracket_amended sampleTable3 2 ((1/2 : ℚ), (0 : ℚ))
    (by norm_num [sampleTable3, List.pairwise_cons])
    (by norm_num [sampleTable3])
    (by norm_num [wavelengths_above, sampleTable3, List.filter])


/-! ## C5 -/

/-- Counterexample to C5 as stated: for a label equal to the last table
wavelength the placement does complete (the right bracket clamps to the last
sample), but the tangent, and hence the chosen normal, is the zero vector,
so the unit-normalisation divides by zero and the tick and text positions
are NaN, not well-defined. -/
theorem well_defined_positions_counterexample :
    place_label sampleTable5 2 = some samplePlacement5 ∧
    samplePlacement5.tangent = ((0 : ℚ), (0 : ℚ)) ∧
    ¬ positions_defined samplePlacement5 := by
  refine ⟨?_, rfl, fun hpd => hpd rfl⟩
  norm_num [place_label, dict_get, bisect_right, py_get,
    locus_left_wavelength, locus_right_wavelength, choose_normal, h_align,
    dotp, vsub, equal_energy, sampleTable5, samplePlacement5,
    List.countP, List.countP.go, List.find?, List.get?, Int.toNat_ofNat,
    Int.toNat_one, Prod.ext_iff, LabelPlacement.mk.injEq]

/-- C5 (amended): for a label present in a strictly sorted table, (i) at the
last table wavelength the bracket index clamps to the last valid sample, so
placement completes with both brackets equal to the label, a zero tangent
and zero chosen normal — no exception is raised but the tick and text
positions are NaN rather than well-defined; (ii) at the first table
wavelength (when a larger wavelength exists) placement completes with the
label as left bracket and the next sample as right bracket. -/
theorem end_label_bracket (table : List (ℚ × Pt)) (label : ℚ) (c : Pt)
    (hs : (table.map Prod.fst).Pairwise (· < ·))
    (hmem : (label, c) ∈ table) :
    ((table.map Prod.fst).getLast? = some label →
      ∃ p, place_label table label = some p ∧ p.left = label ∧
        p.right = label ∧ p.tangent = ((0 : ℚ), (0 : ℚ)) ∧
        ¬ positions_defined p) ∧
    ((table.map Prod.fst).head? = some label →
      wavelengths_above (table.map Prod.fst) label ≠ [] →
      ∃ p, place_label table label = some p ∧ p.left = label ∧
        (wavelengths_above (table.map Prod.fst) label).head?
          = some p.right) := by
  constructor
  · intro hlast
    obtain ⟨t₁, t₂, rfl⟩ := List.append_of_mem hmem
    have ht₂ : t₂ = [] := by
      cases t₂ with
      | nil => rfl
      | cons e t₂ =>
        exfalso
        obtain ⟨-, h2⟩ := pairwise_split t₁ (e :: t₂) label c hs
        have hne : ((label, c) :: e :: t₂).map Prod.fst ≠ [] := by simp
        rw [List.map_append, List.getLast?_append_of_ne_nil _ hne,
          List.map_cons] at hlast
        have hne2 : (e :: t₂).map Prod.fst ≠ [] := by simp
        rw [show ((label, c).1 :: (e :: t₂).map Prod.fst)
            = [(label, c).1] ++ (e :: t₂).map Prod.fst from rfl,
          List.getLast?_append_of_ne_nil _ hne2] at hlast
        have hmem2 : label ∈ (e :: t₂).map Prod.fst :=
          List.mem_of_mem_getLast? hlast
        exact lt_irrefl label (h2 label hmem2)
    subst ht₂
    exact ⟨_, place_label_eval_last t₁ label c hs, rfl, rfl, rfl,
      fun hpd => hpd rfl⟩
  · intro _ habove
    obtain ⟨p, hp, hl, hr, -⟩ :=
      place_label_mem_above table label c hs hmem habove
    exact ⟨p, hp, hl, hr⟩

/-- Witness for the amended C5 at a concrete input. -/
theorem end_label_bracket_witness :
    ((sampleTable5.map Prod.fst).getLast? = some 2 →
      ∃ p, place_label sampleTable5 2 = some p ∧ p.left = 2 ∧
        p.right = 2 ∧ p.tangent = ((0 : ℚ), (0 : ℚ)) ∧
        ¬ positions_defined p) ∧
    ((sampleTable5.map Prod.fst).head? = some 2 →
      wavelengths_above (sampleTable5.map Prod.fst) 2 ≠ [] →
      ∃ p, place_label sampleTable5 2 = some p ∧ p.left = 2 ∧
        (wavelengths_above (sampleTable5.map Prod.fst) 2).head?
          = some p.right) :=
  end_label_bracket sampleTable5 2 ((1 : ℚ), (0 : ℚ))
    (by norm_num [sampleTable5, List.pairwise_cons])
    (by norm_num [sampleTable5])


/-! ## C6 -/

/-- Consecutive polyline segments share their endpoints. -/
theorem polyline_chain :
    ∀ (t : List Pt) (a : Pt),
      List.Chain' (fun s u => s.2 = u.1) (polyline_segments (a :: t))
  | [], _ => by simp [polyline_segments]
  | b :: t, a => by
    have ih := polyline_chain t b
    rw [show polyline_segments (a :: b :: t)
        = (a, b) :: polyline_segments (b :: t) from rfl]
    rw [List.chain'_cons']
    refine ⟨?_, ih⟩
    intro y hy
    cases t with
    | nil => simp [polyline_segments] at hy
    | cons d t =>
      rw [show polyline_segments (b :: d :: t)
          = (b, d) :: polyline_segments (d :: t) from rfl] at hy
      simp only [List.head?_cons, Option.mem_def, Option.some.injEq] at hy
      subst hy
      rfl

/-- The last polyline segment ends at the last coordinate. -/
theorem polyline_last_snd :
    ∀ (t : List Pt) (a : Pt) (s : Pt × Pt),
      (polyline_segments (a :: t)).getLast? = some s →
      (a :: t).getLast? = some s.2
  | [], _, _, hlast => by simp [polyline_segments] at hlast
  | b :: t, a, s, hlast => by
    cases t with
    | nil =>
      simp only [polyline_segments, List.getLast?_singleton,
        Option.some.injEq] at hlast
      subst hlast
      rfl
    | cons d t =>
      rw [show polyline_segments (a :: b :: d :: t)
          = (a, b) :: (b, d) :: polyline_segments (d :: t) from rfl,
        List.getLast?_cons_cons] at hlast
      have ih := polyline_last_snd (d :: t) b s
        (by rw [show polyline_segments (b :: d :: t)
          = (b, d) :: polyline_segments (d :: t) from rfl]; exact hlast)
      rw [List.getLast?_cons_cons]
      exact ih

/-- C6: for every non-empty coordinate list the drawn spectral-locus
boundary is a closed polygon: the traced polyline plus the explicit segment
from the last coordinate back to the first form a chain in which each
segment ends where the next begins and the last segment ends where the
first begins. -/
theorem spectral_locus_closed (cs : List Pt) (h : cs ≠ []) :
    closed_chain (spectral_locus_segments cs) := by
  cases cs with
  | nil => exact absurd rfl h
  | cons a t =>
    cases t with
    | nil =>
      constructor
      · simp [spectral_locus_segments, polyline_segments, closing_segment]
      · intro s₀ sₙ h₀ hₙ
        simp only [spectral_locus_segments, polyline_segments,
          closing_segment, List.getLast?_singleton, List.head?_cons,
          List.nil_append, Option.toList_some, Option.some.injEq] at h₀ hₙ
        subst h₀
        subst hₙ
        rfl
    | cons b t =>
      obtain ⟨L, hL⟩ : ∃ L, (a :: b :: t).getLast? = some L :=
        ⟨_, List.getLast?_eq_getLast (a :: b :: t) (by simp)⟩
      have hclose : closing_segment (a :: b :: t) = some (L, a) := by
        unfold closing_segment
        rw [hL]
        rfl
      have hseg : spectral_locus_segments (a :: b :: t)
          = polyline_segments (a :: b :: t) ++ [(L, a)] := by
        unfold spectral_locus_segments
        rw [hclose]
        rfl
      constructor
      · rw [hseg]
        rw [List.chain'_append]
        refine ⟨polyline_chain (b :: t) a, List.chain'_singleton _, ?_⟩
        intro x hx y hy
        simp only [List.head?_cons, Option.mem_def, Option.some.injEq] at hy
        subst hy
        have := polyline_last_snd (b :: t) a x hx
        rw [hL] at this
        exact (Option.some.inj this).symm
      · intro s₀ sₙ h₀ hₙ
        rw [hseg, show polyline_segments (a :: b :: t)
            = (a, b) :: polyline_segments (b :: t) from rfl,
          List.cons_append, List.head?_cons] at h₀
        rw [hseg, List.getLast?_concat] at hₙ
        cases h₀
        cases hₙ
        rfl

/-- Witness for C6 at a concrete coordinate list. -/
theorem spectral_locus_closed_witness :
    closed_chain (spectral_locus_segments sampleLocus6) :=
  spectral_locus_closed sampleLocus6 (by simp [sampleLocus6])


/-! ## C7 -/

/-- C7: the display helper saves exactly when standalone with a filename,
shows exactly when standalone without one, closes the figure in both of
those cases and only then, and always returns `True`. -/
theorem display_behaviour (standalone : Bool) (filename : Option String) :
    (BackendCall.savefig ∈ (display standalone filename).1 ↔
      standalone = true ∧ filename.isSome = true) ∧
    (BackendCall.showFig ∈ (display standalone filename).1 ↔
      standalone = true ∧ filename = none) ∧
    (BackendCall.close ∈ (display standalone filename).1 ↔
      standalone = true) ∧
    (display standalone filename).2 = true := by
  cases standalone <;> cases filename <;> simp [display]

/-! ## C8 -/

/-- C8: the chart-title position of `colour_checker_plot` uses true,
non-flooring division on the colour count and the per-row count, matching
the claimed formulas exactly and differing from the floored variant. -/
theorem colour_checker_text_true_division :
    (∀ (width spacing : ℚ) (across count : ℕ),
      colour_checker_text_position width spacing across count =
        (width * ((across : ℚ) / 2) + (across : ℚ) * (spacing / 2)
           - spacing / 2,
         -((count : ℚ) / (across : ℚ) + spacing / 2))) ∧
    colour_checker_text_position 1 (1/4) 5 23
      ≠ colour_checker_text_position_floored 1 (1/4) 5 23 := by
  refine ⟨fun _ _ _ _ => rfl, ?_⟩
  norm_num [colour_checker_text_position, colour_checker_text_position_floored,
    Prod.ext_iff]

/-! ## C9 -/

/-- C9: after any call wrapped by the `figure_size` decorator — whether the
body returns normally or raises, and whether or not a per-call
`figure_size` keyword override was supplied — the global figure-size setting
is restored to `DEFAULT_FIGURE_SIZE = (14, 7)`. -/
theorem figure_size_restores_default {σ α ε : Type} (size : ℚ × ℚ)
    (figure_size_kwarg : Option (ℚ × ℚ))
    (body : PylabState σ → PylabState σ × Except ε α) (s : PylabState σ) :
    (figure_size_wrapper size figure_size_kwarg body s).1.figsize
      = DEFAULT_FIGURE_SIZE := rfl

/-! ## C4 -/

/-- C4: looking up an unknown colour-matching-function name does not produce
the documented `KeyError` listing the valid names: the error branch of
`_get_cmfs` evaluates `cmfs.CMFS.keys()` on the rebound local `cmfs`, which
is `None` there, so an `AttributeError` is raised while the message is being
built and no `KeyError` ever escapes. -/
theorem get_cmfs_unknown_raises_attribute_error :
    get_cmfs sampleCMFSTable "Unknown CMFS"
      = Except.error (PyError.attributeError
          "NoneType object has no attribute CMFS") ∧
    ∀ msg : String, get_cmfs sampleCMFSTable "Unknown CMFS"
      ≠ Except.error (PyError.keyError msg) := by
  have hfind : sampleCMFSTable.find?
      (fun e => decide (e.1 = "Unknown CMFS")) = none := by
    rfl
  constructor
  · unfold get_cmfs
    rw [hfind]
    rfl
  · intro msg h
    unfold get_cmfs at h
    rw [hfind] at h
    simp at h


/-! ## C10 -/

/-- Division-algorithm step facts for the successor, split on whether the
successor lands on a row boundary. -/
theorem succ_divmod (a j : ℕ) (ha : 0 < a) :
    ((j + 1) % a = 0 → (j + 1) / a = j / a + 1 ∧ j % a + 1 = a) ∧
    ((j + 1) % a ≠ 0 → (j + 1) / a = j / a ∧ (j + 1) % a = j % a + 1) := by
  obtain ⟨q, r, hqr, hr⟩ : ∃ q r, j = a * q + r ∧ r < a :=
    ⟨j / a, j % a, (Nat.div_add_mod j a).symm, Nat.mod_lt j ha⟩
  subst hqr
  have hdj : (a * q + r) / a = q := by
    rw [show a * q + r = r + q * a by ring, Nat.add_mul_div_right _ _ ha,
      Nat.div_eq_of_lt hr]
    omega
  have hmj : (a * q + r) % a = r := by
    rw [show a * q + r = r + q * a by ring, Nat.add_mul_mod_self_right]
    exact Nat.mod_eq_of_lt hr
  rcases Nat.lt_or_ge (r + 1) a with hlt | hge
  · have hmod : (a * q + r + 1) % a = r + 1 := by
      rw [show a * q + r + 1 = (r + 1) + q * a by ring,
        Nat.add_mul_mod_self_right]
      exact Nat.mod_eq_of_lt hlt
    have hdiv : (a * q + r + 1) / a = q := by
      rw [show a * q + r + 1 = (r + 1) + q * a by ring,
        Nat.add_mul_div_right _ _ ha, Nat.div_eq_of_lt hlt]
      omega
    constructor
    · intro h0
      rw [hmod] at h0
      omega
    · intro _
      rw [hdiv, hdj, hmod, hmj]
      exact ⟨rfl, rfl⟩
  · have heq : r + 1 = a := by omega
    have hmod : (a * q + r + 1) % a = 0 := by
      rw [show a * q + r + 1 = (q + 1) * a by rw [← heq]; ring]
      exact Nat.mul_mod_left _ _
    have hdiv : (a * q + r + 1) / a = q + 1 := by
      rw [show a * q + r + 1 = (q + 1) * a by rw [← heq]; ring]
      exact Nat.mul_div_cancel _ ha
    constructor
    · intro _
      rw [hdiv, hdj, hmj]
      exact ⟨rfl, heq⟩
    · intro h0
      exact absurd hmod h0

/-- Closed form of the loop state of `multi_colour_plot` before drawing
swatch `i + 1`. -/
theorem swatch_state_closed_form (width height spacing : ℚ) (across : ℕ)
    (ha : 0 < across) :
    ∀ i : ℕ, swatch_state width height spacing across (i + 1)
      = ((((i % across : ℕ) : ℚ) + 1) * (width + spacing),
         -(((i / across : ℕ) : ℚ)) * (height + spacing)) := by
  intro i
  induction i with
  | zero =>
    show (swatch_step width height spacing across 0
      (swatch_state width height spacing across 0)).2 = _
    unfold swatch_step swatch_state
    rw [if_neg (fun hc => hc.2 rfl)]
    rw [Nat.zero_mod, Nat.zero_div]
    norm_num
  | succ j ih =>
    show (swatch_step width height spacing across (j + 1)
      (swatch_state width height spacing across (j + 1))).2 = _
    rw [ih]
    unfold swatch_step
    by_cases hmod : (j + 1) % across = 0
    · rw [if_pos ⟨hmod, Nat.succ_ne_zero j⟩]
      obtain ⟨hdiv, -⟩ := (succ_divmod across j ha).1 hmod
      rw [hmod, hdiv]
      refine Prod.ext ?_ ?_ <;> push_cast <;> ring
    · rw [if_neg (fun hc => hmod hc.1)]
      obtain ⟨hdiv, hm⟩ := (succ_divmod across j ha).2 hmod
      rw [hdiv, hm]
      refine Prod.ext ?_ ?_ <;> push_cast <;> ring

/-- C10: the `i`-th swatch drawn by `multi_colour_plot` has its lower-left
corner at `x = (i mod across) · (width + spacing)` and
`y = −⌊i / across⌋ · (height + spacing)`: rows hold `across` swatches left
to right and successive rows descend by `height + spacing`. -/
theorem swatch_origin_closed_form (width height spacing : ℚ) (across : ℕ)
    (ha : 0 < across) (i : ℕ) :
    swatch_origin width height spacing across i
      = (((i % across : ℕ) : ℚ) * (width + spacing),
         -(((i / across : ℕ) : ℚ)) * (height + spacing)) := by
  cases i with
  | zero =>
    unfold swatch_origin swatch_step swatch_state
    rw [if_neg (fun hc => hc.2 rfl)]
    rw [Nat.zero_mod, Nat.zero_div]
    norm_num
  | succ j =>
    unfold swatch_origin
    rw [swatch_state_closed_form width height spacing across ha j]
    unfold swatch_step
    by_cases hmod : (j + 1) % across = 0
    · rw [if_pos ⟨hmod, Nat.succ_ne_zero j⟩]
      obtain ⟨hdiv, -⟩ := (succ_divmod across j ha).1 hmod
      rw [hmod, hdiv]
      refine Prod.ext ?_ ?_ <;> push_cast <;> ring
    · rw [if_neg (fun hc => hmod hc.1)]
      obtain ⟨hdiv, hm⟩ := (succ_divmod across j ha).2 hmod
      rw [hdiv, hm]
      refine Prod.ext ?_ ?_ <;> push_cast <;> ring

/-- Witness for C10 at a concrete input: the fourth swatch of a three-across
grid sits at column one of row one. -/
theorem swatch_origin_closed_form_witness :
    swatch_origin 1 1 0 3 4
      = ((((4 % 3 : ℕ) : ℚ)) * (1 + 0),
         -(((4 / 3 : ℕ) : ℚ)) * (1 + 0)) :=
  swatch_origin_closed_form 1 1 0 3 (by norm_num) 4

end ColourPlotting
